import Mathlib

/-!
Shallow embedding of `src/util/ser.rs` from rust-lightning: the binary
wire-format codec layer (Writeable/Readable implementations for integers,
booleans, fixed-size byte arrays, length-prefixed collections, and
domain cryptographic types).

Modelling conventions:
* A wire byte is a `Nat` (meaningful values are `< 256`).
* A `Writer` is modelled by the byte list an encoder appends; `Writeable::write`
  becomes a pure function producing the emitted bytes (wrapped in `Except` for
  the one encoder, `Vec<Signature>`, that can itself fail).
* A `Read` source is the list of remaining bytes; `Readable::read` becomes
  `List Nat → Except DecodeError (α × List Nat)`, returning the decoded value
  and the unconsumed suffix.
* Rust `usize` arithmetic is `Nat` with explicit overflow at `2 ^ 64`
  (`checked_mul`); `as u16` casts are `% 2 ^ 16`.
* The secp256k1 library types (`PublicKey`, `Signature`) are external
  collaborators: their `serialize`/`from_slice`/`serialize_compact`/
  `from_compact` functions are parameters of the codec definitions, exactly as
  the codec in `ser.rs` only calls into them.
-/

namespace Ser

/-- Modelled from the spec: the `DecodeError` enum from `ln::msgs` (only its
declaration is outside `src/util/ser.rs`); §7 of the spec lists the kinds:
short read, bad length descriptor, invalid value, bad public key, bad
signature, plus an I/O passthrough for sink-side errors. -/
inductive DecodeError where
  | ShortRead
  | BadLengthDescriptor
  | InvalidValue
  | BadPublicKey
  | BadSignature
  | Io
  deriving DecidableEq, Repr

/-- `MAX_BUF_SIZE` from `ser.rs`: `64 * 1024`. -/
def MAX_BUF_SIZE : Nat := 64 * 1024

/-- Rust `usize::checked_mul` on a 64-bit platform: `none` on overflow. -/
def checked_mul (a b : Nat) : Option Nat :=
  if a * b < 2 ^ 64 then some (a * b) else none

/-- Modelled from the spec: the source capability `read_exact(n)` (§6); a
short read — fewer than `n` bytes remaining — surfaces as the `ShortRead`
decode error (§7), via the `From<io::Error>` conversion living in `ln::msgs`
outside `src/`. Consumes exactly `n` bytes on success. -/
def read_exact (n : Nat) (s : List Nat) :
    Except DecodeError (List Nat × List Nat) :=
  if n ≤ s.length then .ok (s.take n, s.drop n) else .error .ShortRead

/-- Modelled from the spec: `beN_to_array` of `util::byte_utils` (not under
`src/`); §4.2: unsigned integers encode as fixed big-endian byte sequences of
`width/8` bytes. `beBytes w n` is the `w`-byte big-endian encoding of `n`. -/
def beBytes : Nat → Nat → List Nat
  | 0, _ => []
  | w + 1, n => beBytes w (n / 256) ++ [n % 256]

/-- Modelled from the spec: `slice_to_beN` of `util::byte_utils` (not under
`src/`); reconstructs the big-endian value of a byte slice. -/
def slice_to_be (l : List Nat) : Nat :=
  l.foldl (fun acc b => acc * 256 + b) 0

/-- `impl Writeable for u64` (via `impl_writeable_primitive!(u64, be64_to_array, 8, ...)`). -/
def u64_write (n : Nat) : List Nat := beBytes 8 n

/-- `impl Readable for u64`: read exactly 8 bytes, big-endian decode. -/
def u64_read (s : List Nat) : Except DecodeError (Nat × List Nat) := do
  let (buf, rest) ← read_exact 8 s
  .ok (slice_to_be buf, rest)

/-- `impl Writeable for u32`. -/
def u32_write (n : Nat) : List Nat := beBytes 4 n

/-- `impl Readable for u32`. -/
def u32_read (s : List Nat) : Except DecodeError (Nat × List Nat) := do
  let (buf, rest) ← read_exact 4 s
  .ok (slice_to_be buf, rest)

/-- `impl Writeable for u16`. -/
def u16_write (n : Nat) : List Nat := beBytes 2 n

/-- `impl Readable for u16`. -/
def u16_read (s : List Nat) : Except DecodeError (Nat × List Nat) := do
  let (buf, rest) ← read_exact 2 s
  .ok (slice_to_be buf, rest)

/-- `impl Writeable for u8`: writes the single byte. -/
def u8_write (n : Nat) : List Nat := [n]

/-- `impl Readable for u8`: reads exactly one byte. -/
def u8_read (s : List Nat) : Except DecodeError (Nat × List Nat) := do
  let (buf, rest) ← read_exact 1 s
  .ok (buf.headI, rest)

/-- `impl Writeable for bool`: writes `1` for true, `0` for false. -/
def bool_write (b : Bool) : List Nat := [if b then 1 else 0]

/-- `impl Readable for bool`: reads one byte; any value other than 0 or 1 is
`InvalidValue`; returns whether the byte equals 1. -/
def bool_read (s : List Nat) : Except DecodeError (Bool × List Nat) := do
  let (buf, rest) ← read_exact 1 s
  if buf.headI ≠ 0 ∧ buf.headI ≠ 1 then
    .error .InvalidValue
  else
    .ok (buf.headI == 1, rest)

/-- `impl_array!($size)` writer: a `[u8; size]` writes its raw bytes. -/
def array_write (a : List Nat) : List Nat := a

/-- `impl_array!($size)` reader: reads exactly `size` bytes. -/
def array_read (size : Nat) (s : List Nat) :
    Except DecodeError (List Nat × List Nat) :=
  read_exact size s

/-- `impl Writeable for Vec<u8>`: `(self.len() as u16).write(w)` — the length
truncated to 16 bits — followed by the raw bytes. -/
def vecU8_write (v : List Nat) : List Nat :=
  u16_write (v.length % 2 ^ 16) ++ v

/-- `impl Readable for Vec<u8>`: read a `u16` length, then exactly that many
bytes (`resize` to the declared length and `read_exact` into it). -/
def vecU8_read (s : List Nat) :
    Except DecodeError (List Nat × List Nat) := do
  let (len, s) ← u16_read s
  read_exact len s

/-- A Rust `HashMap` is modelled as its list of key/value entries (in its
iteration order). `HashMap::insert` replaces the value when the key is
present and adds a fresh entry otherwise. -/
def mapInsert {K V : Type} [DecidableEq K]
    (m : List (K × V)) (k : K) (v : V) : List (K × V) :=
  if m.any (fun kv => kv.1 = k) then
    m.map (fun kv => if kv.1 = k then (k, v) else kv)
  else
    m ++ [(k, v)]

/-- A first-match lookup on the entry list: the observer corresponding to
`HashMap` key lookup. -/
def mapFind {K V : Type} [DecidableEq K] (m : List (K × V)) (k : K) :
    Option V :=
  match m with
  | [] => none
  | kv :: t => if kv.1 = k then some kv.2 else mapFind t k

/-- `impl Writeable for HashMap<K, V>`: `(self.len() as u16).write(w)`, then
each key followed by its value in iteration order; `wK`/`wV` are the `K`/`V`
`Writeable` implementations (fallible, as the trait allows). -/
def hashMap_write {K V : Type}
    (wK : K → Except DecodeError (List Nat))
    (wV : V → Except DecodeError (List Nat))
    (m : List (K × V)) : Except DecodeError (List Nat) := do
  let body ← m.foldlM (fun acc kv => do
    let kb ← wK kv.1
    let vb ← wV kv.2
    .ok (acc ++ kb ++ vb)) []
  .ok (u16_write (m.length % 2 ^ 16) ++ body)

/-- The read loop of `impl Readable for HashMap<K, V>`:
`for _ in 0..len { ret.insert(K::read(r)?, V::read(r)?); }`. -/
def hashMap_read_loop {K V : Type} [DecidableEq K]
    (rK : List Nat → Except DecodeError (K × List Nat))
    (rV : List Nat → Except DecodeError (V × List Nat)) :
    Nat → List (K × V) → List Nat →
    Except DecodeError (List (K × V) × List Nat)
  | 0, acc, s => .ok (acc, s)
  | n + 1, acc, s => do
    let (k, s) ← rK s
    let (v, s) ← rV s
    hashMap_read_loop rK rV n (mapInsert acc k v) s

/-- `impl Readable for HashMap<K, V>`: read a `u16` count, then that many
key/value pairs, inserting each into a fresh map. -/
def hashMap_read {K V : Type} [DecidableEq K]
    (rK : List Nat → Except DecodeError (K × List Nat))
    (rV : List Nat → Except DecodeError (V × List Nat))
    (s : List Nat) : Except DecodeError (List (K × V) × List Nat) := do
  let (len, s) ← u16_read s
  hashMap_read_loop rK rV len [] s

/-- The `u8` `Writeable` implementation in the fallible form the `HashMap`
writer consumes (writing a single byte to an in-memory sink cannot fail). -/
def u8_writeM (n : Nat) : Except DecodeError (List Nat) :=
  .ok (u8_write n)

/-- `impl Writeable for Vec<Signature>`: first `byte_size = len.checked_mul(33)`,
`BadLengthDescriptor` on overflow or when `byte_size > MAX_BUF_SIZE`; only then
the `u16` count and each signature's bytes. `serialize_compact` is the secp256k1
library's 64-byte compact serialization (each element writes via `[u8; 64]`). -/
def vecSig_write {Sig : Type} (serialize_compact : Sig → List Nat)
    (v : List Sig) : Except DecodeError (List Nat) :=
  match checked_mul v.length 33 with
  | none => .error .BadLengthDescriptor
  | some byte_size =>
    if byte_size > MAX_BUF_SIZE then .error .BadLengthDescriptor
    else .ok (u16_write (v.length % 2 ^ 16) ++
              v.flatMap (fun e => array_write (serialize_compact e)))

/-- `impl Readable for Signature`: read exactly 64 bytes, then the secp256k1
library's `Signature::from_compact`; `BadSignature` when it rejects. -/
def signature_read {Sig : Type} (from_compact : List Nat → Option Sig)
    (s : List Nat) : Except DecodeError (Sig × List Nat) := do
  let (buf, rest) ← read_exact 64 s
  match from_compact buf with
  | some sig => .ok (sig, rest)
  | none => .error .BadSignature

/-- The read loop of `impl Readable for Vec<Signature>`:
`for _ in 0..len { ret.push(Signature::read(r)?); }`. -/
def vecSig_read_loop {Sig : Type} (from_compact : List Nat → Option Sig) :
    Nat → List Sig → List Nat → Except DecodeError (List Sig × List Nat)
  | 0, acc, s => .ok (acc, s)
  | n + 1, acc, s => do
    let (sig, s) ← signature_read from_compact s
    vecSig_read_loop from_compact n (acc ++ [sig]) s

/-- `impl Readable for Vec<Signature>`: read a `u16` count, guard
`len.checked_mul(33)` against overflow and the `MAX_BUF_SIZE` ceiling before
any element is read or capacity reserved, then read `len` signatures. -/
def vecSig_read {Sig : Type} (from_compact : List Nat → Option Sig)
    (s : List Nat) : Except DecodeError (List Sig × List Nat) := do
  let (len, s) ← u16_read s
  match checked_mul len 33 with
  | none => .error .BadLengthDescriptor
  | some byte_size =>
    if byte_size > MAX_BUF_SIZE then .error .BadLengthDescriptor
    else vecSig_read_loop from_compact len [] s

/-- A bitcoin `Script` is an opaque byte program; modelled as its byte list. -/
abbrev Script : Type := List Nat

/-- `impl Writeable for Script`: `(self.len() as u16).write(w)` then the raw
script bytes. -/
def script_write (sc : Script) : List Nat :=
  u16_write (List.length sc % 2 ^ 16) ++ sc

/-- `impl Readable for Script`: read a `u16` length, then exactly that many
bytes; `Script::from(buf)` wraps the bytes verbatim. -/
def script_read (s : List Nat) : Except DecodeError (Script × List Nat) := do
  let (len, s) ← u16_read s
  read_exact len s

/-- `impl Writeable for Option<Script>`: write nothing when absent, otherwise
write the script. -/
def optScript_write (o : Option Script) : List Nat :=
  match o with
  | some sc => script_write sc
  | none => []

/-- `impl Readable for Option<Script>`: attempt the `u16` length read; on
success read the payload and return `Some`; if the length read itself fails
with `ShortRead`, return `Ok(None)`; any other error is propagated. -/
def optScript_read (s : List Nat) :
    Except DecodeError (Option Script × List Nat) :=
  match u16_read s with
  | .ok (len, s) =>
    match read_exact len s with
    | .ok (buf, rest) => .ok (some buf, rest)
    | .error e => .error e
  | .error .ShortRead => .ok (none, s)
  | .error e => .error e

/-- `impl Writeable for PublicKey`: `self.serialize().write(w)` — the
secp256k1 library's 33-byte compressed representation, written via `[u8; 33]`. -/
def publicKey_write {PK : Type} (serialize : PK → List Nat) (k : PK) :
    List Nat :=
  array_write (serialize k)

/-- `impl Readable for PublicKey`: read exactly 33 bytes, then the secp256k1
library's `PublicKey::from_slice`; `BadPublicKey` when it rejects. -/
def publicKey_read {PK : Type} (from_slice : List Nat → Option PK)
    (s : List Nat) : Except DecodeError (PK × List Nat) := do
  let (buf, rest) ← read_exact 33 s
  match from_slice buf with
  | some key => .ok (key, rest)
  | none => .error .BadPublicKey

/-- A `Sha256dHash` is its 32 raw bytes; modelled as the byte list. -/
abbrev Sha256dHash : Type := List Nat

/-- `impl Writeable for Sha256dHash`: `self.as_bytes().write(w)` — the raw 32
bytes via `[u8; 32]`. -/
def sha256dHash_write (h : Sha256dHash) : List Nat :=
  array_write h

/-- `impl Readable for Sha256dHash`: read exactly 32 bytes; `From::from` wraps
them verbatim (every 32-byte string is a valid digest). -/
def sha256dHash_read (s : List Nat) :
    Except DecodeError (Sha256dHash × List Nat) :=
  read_exact 32 s

/-- `impl Writeable for Signature`: `self.serialize_compact(..).write(w)` —
the 64-byte compact representation via `[u8; 64]`. -/
def signature_write {Sig : Type} (serialize_compact : Sig → List Nat)
    (sig : Sig) : List Nat :=
  array_write (serialize_compact sig)

/-- A stand-in compressed-key serializer used to instantiate the parametric
codec theorems at a concrete library model. -/
def pkSerTest : Unit → List Nat := fun _ => List.replicate 33 0

/-- The matching stand-in `from_slice`: accepts exactly the serialized form. -/
def pkParseTest : List Nat → Option Unit :=
  fun l => if l = List.replicate 33 0 then some () else none

/-- A stand-in compact-signature serializer for concrete instantiation. -/
def sigSerTest : Unit → List Nat := fun _ => List.replicate 64 0

/-- The matching stand-in `from_compact`: accepts exactly the serialized form. -/
def sigParseTest : List Nat → Option Unit :=
  fun l => if l = List.replicate 64 0 then some () else none

/-! ### Basic lemmas about the source and the big-endian helpers -/

theorem read_exact_append (a rest : List Nat) {n : Nat}
    (h : a.length = n) : read_exact n (a ++ rest) = .ok (a, rest) := by
  subst h
  simp [read_exact, List.take_left, List.drop_left]

theorem read_exact_short {s : List Nat} {n : Nat} (h : s.length < n) :
    read_exact n s = .error .ShortRead := by
  rw [read_exact, if_neg (Nat.not_le.mpr h)]

theorem beBytes_length (w n : Nat) : (beBytes w n).length = w := by
  induction w generalizing n with
  | zero => rfl
  | succ w ih => simp [beBytes, ih]

theorem foldl_be (init : Nat) (l : List Nat) :
    l.foldl (fun acc b => acc * 256 + b) init =
      init * 256 ^ l.length + slice_to_be l := by
  induction l generalizing init with
  | nil => simp [slice_to_be]
  | cons b t ih =>
    simp only [List.foldl_cons, List.length_cons, slice_to_be]
    rw [ih (init * 256 + b), ih (0 * 256 + b)]
    ring

theorem slice_to_be_beBytes (w n : Nat) :
    slice_to_be (beBytes w n) = n % 256 ^ w := by
  induction w generalizing n with
  | zero => simp [beBytes, slice_to_be, Nat.mod_one]
  | succ w ih =>
    have hmul : n % (256 * 256 ^ w) = n % 256 + 256 * (n / 256 % 256 ^ w) :=
      Nat.mod_mul
    simp only [beBytes, slice_to_be, List.foldl_append, List.foldl_cons,
      List.foldl_nil]
    rw [show (beBytes w (n / 256)).foldl (fun acc b => acc * 256 + b) 0 =
        slice_to_be (beBytes w (n / 256)) from rfl, ih]
    rw [pow_succ, mul_comm (256 ^ w) 256, hmul]
    ring

theorem u16_read_append (n : Nat) (rest : List Nat) :
    u16_read (u16_write n ++ rest) = .ok (n % 2 ^ 16, rest) := by
  rw [u16_read, u16_write, read_exact_append (beBytes 2 n) rest (beBytes_length 2 n)]
  show Except.ok (slice_to_be (beBytes 2 n), rest) = _
  rw [slice_to_be_beBytes]
  norm_num

theorem u32_read_append (n : Nat) (rest : List Nat) :
    u32_read (u32_write n ++ rest) = .ok (n % 2 ^ 32, rest) := by
  rw [u32_read, u32_write, read_exact_append (beBytes 4 n) rest (beBytes_length 4 n)]
  show Except.ok (slice_to_be (beBytes 4 n), rest) = _
  rw [slice_to_be_beBytes]
  norm_num

theorem u64_read_append (n : Nat) (rest : List Nat) :
    u64_read (u64_write n ++ rest) = .ok (n % 2 ^ 64, rest) := by
  rw [u64_read, u64_write, read_exact_append (beBytes 8 n) rest (beBytes_length 8 n)]
  show Except.ok (slice_to_be (beBytes 8 n), rest) = _
  rw [slice_to_be_beBytes]
  norm_num

theorem u16_read_short {s : List Nat} (h : s.length < 2) :
    u16_read s = .error .ShortRead := by
  rw [u16_read, read_exact_short h]
  rfl

theorem u8_read_append (n : Nat) (rest : List Nat) :
    u8_read (u8_write n ++ rest) = .ok (n, rest) := by
  rw [u8_read, u8_write,
    read_exact_append [n] rest (show ([n] : List Nat).length = 1 from rfl)]
  rfl

theorem u32_read_short {s : List Nat} (h : s.length < 4) :
    u32_read s = .error .ShortRead := by
  rw [u32_read, read_exact_short h]
  rfl

theorem u64_read_short {s : List Nat} (h : s.length < 8) :
    u64_read s = .error .ShortRead := by
  rw [u64_read, read_exact_short h]
  rfl

theorem ok_bind {α β : Type} (a : α) (f : α → Except DecodeError β) :
    (Except.ok a >>= f) = f a := rfl

theorem bool_read_cons (b : Nat) (rest : List Nat) :
    bool_read (b :: rest) =
      if b ≠ 0 ∧ b ≠ 1 then .error .InvalidValue
      else .ok (b == 1, rest) := by
  rw [bool_read, show b :: rest = [b] ++ rest from rfl,
    read_exact_append [b] rest (show ([b] : List Nat).length = 1 from rfl)]
  rfl

/-! ### Claim theorems -/

/-- C5: boolean decode is strict two-valued — byte `0x00` decodes to `false`,
byte `0x01` decodes to `true`, and any other byte (such as `0x02`) fails with
`InvalidValue`; boolean encode writes exactly the single byte `0` or `1`. -/
theorem bool_codec_strict (rest : List Nat) (b : Nat)
    (hb0 : b ≠ 0) (hb1 : b ≠ 1) :
    bool_read (0 :: rest) = .ok (false, rest) ∧
    bool_read (1 :: rest) = .ok (true, rest) ∧
    bool_read (b :: rest) = .error .InvalidValue ∧
    bool_write false = [0] ∧ bool_write true = [1] := by
  refine ⟨?_, ?_, ?_, rfl, rfl⟩
  · rw [bool_read_cons]; simp
  · rw [bool_read_cons]; simp
  · rw [bool_read_cons, if_pos ⟨hb0, hb1⟩]

theorem bool_codec_strict_witness :
    bool_read (0 :: [7]) = .ok (false, [7]) ∧
    bool_read (1 :: [7]) = .ok (true, [7]) ∧
    bool_read (2 :: [7]) = .error .InvalidValue ∧
    bool_write false = [0] ∧ bool_write true = [1] :=
  bool_codec_strict [7] 2 (by decide) (by decide)

/-- C6: decoding a byte vector whose 16-bit length prefix declares more bytes
than the source still holds fails with `ShortRead` and never returns a partial
result; in particular prefix `0x0005` over a 3-byte remainder fails. -/
theorem vecU8_decode_truncated (len : Nat) (hlen : len < 2 ^ 16)
    (avail : List Nat) (h : avail.length < len) :
    vecU8_read (u16_write len ++ avail) = .error .ShortRead ∧
    vecU8_read [0, 5, 10, 11, 12] = .error .ShortRead := by
  constructor
  · have hpre : vecU8_read (u16_write len ++ avail) = read_exact len avail := by
      rw [vecU8_read, u16_read_append, Nat.mod_eq_of_lt hlen]
      rfl
    rw [hpre, read_exact_short h]
  · rfl

theorem vecU8_decode_truncated_witness :
    vecU8_read (u16_write 5 ++ [10, 11, 12]) = .error .ShortRead ∧
    vecU8_read [0, 5, 10, 11, 12] = .error .ShortRead :=
  vecU8_decode_truncated 5 (by decide) [10, 11, 12] (by decide)

/-- C3: decoding `Option<Script>` from an exhausted source yields `None`;
the two bytes `0x00 0x00` decode to `Some` of the empty script; and a failure
after the 16-bit length was successfully read — such as source exhaustion
partway through the payload — is a hard `ShortRead` error, never `None`. -/
theorem optScript_absence_vs_error
    (s : List Nat) (len : Nat) (rest : List Nat)
    (hs : u16_read s = .ok (len, rest)) (hshort : rest.length < len) :
    optScript_read [] = .ok (none, []) ∧
    optScript_read [0, 0] = .ok (some [], []) ∧
    optScript_read s = .error .ShortRead := by
  refine ⟨rfl, rfl, ?_⟩
  simp only [optScript_read, hs, read_exact_short hshort]

theorem optScript_absence_vs_error_witness :
    optScript_read [] = .ok (none, []) ∧
    optScript_read [0, 0] = .ok (some [], []) ∧
    optScript_read [0, 5, 1, 2, 3] = .error .ShortRead :=
  optScript_absence_vs_error [0, 5, 1, 2, 3] 5 [1, 2, 3] rfl (by decide)

/-- C9: whenever the initial 16-bit length read fails with `ShortRead` — not
only on a fully empty source but also on a source holding exactly one leftover
byte — `Option<Script>` decode returns `Ok(None)`. -/
theorem optScript_one_leftover_byte (b : Nat) (s : List Nat)
    (h : s.length < 2) :
    optScript_read [b] = .ok (none, [b]) ∧
    optScript_read s = .ok (none, s) := by
  constructor
  · rw [optScript_read, u16_read_short (by simp : ([b] : List Nat).length < 2)]
  · rw [optScript_read, u16_read_short h]

theorem optScript_one_leftover_byte_witness :
    optScript_read [42] = .ok (none, [42]) ∧
    optScript_read [9] = .ok (none, [9]) :=
  optScript_one_leftover_byte 42 [9] (by decide)

/-- C7: each unsigned integer of width 16/32/64 bits encodes to exactly
`width/8` bytes laid out big-endian (most significant byte first), and decode
reads exactly that many bytes — failing with `ShortRead` when fewer remain —
and reconstructs the value. -/
theorem unsigned_bigendian_codecs (n16 n32 n64 : Nat) (rest : List Nat)
    (h16 : n16 < 2 ^ 16) (h32 : n32 < 2 ^ 32) (h64 : n64 < 2 ^ 64)
    (s16 s32 s64 : List Nat)
    (hs16 : s16.length < 2) (hs32 : s32.length < 4) (hs64 : s64.length < 8) :
    ((u16_write n16).length = 2 ∧
     u16_write n16 = [n16 / 2 ^ 8 % 256, n16 % 256] ∧
     u16_read (u16_write n16 ++ rest) = .ok (n16, rest) ∧
     u16_read s16 = .error .ShortRead) ∧
    ((u32_write n32).length = 4 ∧
     u32_write n32 = [n32 / 2 ^ 24 % 256, n32 / 2 ^ 16 % 256,
       n32 / 2 ^ 8 % 256, n32 % 256] ∧
     u32_read (u32_write n32 ++ rest) = .ok (n32, rest) ∧
     u32_read s32 = .error .ShortRead) ∧
    ((u64_write n64).length = 8 ∧
     u64_write n64 = [n64 / 2 ^ 56 % 256, n64 / 2 ^ 48 % 256,
       n64 / 2 ^ 40 % 256, n64 / 2 ^ 32 % 256, n64 / 2 ^ 24 % 256,
       n64 / 2 ^ 16 % 256, n64 / 2 ^ 8 % 256, n64 % 256] ∧
     u64_read (u64_write n64 ++ rest) = .ok (n64, rest) ∧
     u64_read s64 = .error .ShortRead) := by
  refine ⟨⟨beBytes_length 2 n16, ?_, ?_, u16_read_short hs16⟩,
          ⟨beBytes_length 4 n32, ?_, ?_, u32_read_short hs32⟩,
          ⟨beBytes_length 8 n64, ?_, ?_, u64_read_short hs64⟩⟩
  · show beBytes 2 n16 = _
    simp [beBytes, Nat.div_div_eq_div_mul]
  · rw [u16_read_append, Nat.mod_eq_of_lt h16]
  · show beBytes 4 n32 = _
    simp [beBytes, Nat.div_div_eq_div_mul]
  · rw [u32_read_append, Nat.mod_eq_of_lt h32]
  · show beBytes 8 n64 = _
    simp [beBytes, Nat.div_div_eq_div_mul]
  · rw [u64_read_append, Nat.mod_eq_of_lt h64]

theorem unsigned_bigendian_codecs_witness :
    ((u16_write 513).length = 2 ∧
     u16_write 513 = [513 / 2 ^ 8 % 256, 513 % 256] ∧
     u16_read (u16_write 513 ++ [9]) = .ok (513, [9]) ∧
     u16_read [7] = .error .ShortRead) ∧
    ((u32_write 66051).length = 4 ∧
     u32_write 66051 = [66051 / 2 ^ 24 % 256, 66051 / 2 ^ 16 % 256,
       66051 / 2 ^ 8 % 256, 66051 % 256] ∧
     u32_read (u32_write 66051 ++ [9]) = .ok (66051, [9]) ∧
     u32_read [7, 7, 7] = .error .ShortRead) ∧
    ((u64_write 3).length = 8 ∧
     u64_write 3 = [3 / 2 ^ 56 % 256, 3 / 2 ^ 48 % 256,
       3 / 2 ^ 40 % 256, 3 / 2 ^ 32 % 256, 3 / 2 ^ 24 % 256,
       3 / 2 ^ 16 % 256, 3 / 2 ^ 8 % 256, 3 % 256] ∧
     u64_read (u64_write 3 ++ [9]) = .ok (3, [9]) ∧
     u64_read [7, 7, 7, 7, 7, 7, 7] = .error .ShortRead) :=
  unsigned_bigendian_codecs 513 66051 3 [9] (by decide) (by decide) (by decide)
    [7] [7, 7, 7] [7, 7, 7, 7, 7, 7, 7] (by decide) (by decide) (by decide)

/-- C8: public key decode reads exactly 33 bytes and validates them through
the curve library: a 33-byte string the library rejects fails with
`BadPublicKey`, and a valid compressed key writes its 33-byte serialization
and round-trips unchanged. -/
theorem publicKey_codec {PK : Type}
    (serialize : PK → List Nat) (from_slice : List Nat → Option PK)
    (bs rest rest2 : List Nat) (hbs : bs.length = 33)
    (hbad : from_slice bs = none)
    (k : PK) (hklen : (serialize k).length = 33)
    (hkrt : from_slice (serialize k) = some k) :
    publicKey_read from_slice (bs ++ rest) = .error .BadPublicKey ∧
    publicKey_write serialize k = serialize k ∧
    publicKey_read from_slice (publicKey_write serialize k ++ rest2) =
      .ok (k, rest2) := by
  refine ⟨?_, rfl, ?_⟩
  · rw [publicKey_read, read_exact_append bs rest hbs]
    simp [ok_bind, hbad]
  · rw [publicKey_read, publicKey_write, array_write,
      read_exact_append (serialize k) rest2 hklen]
    simp [ok_bind, hkrt]

theorem vecSig_read_guard {Sig : Type} (from_compact : List Nat → Option Sig)
    (len : Nat) (hlen : len < 2 ^ 16) (hbig : len * 33 > MAX_BUF_SIZE)
    (rest : List Nat) :
    vecSig_read from_compact (u16_write len ++ rest) =
      .error .BadLengthDescriptor := by
  have hof : len * 33 < 18446744073709551616 := by omega
  rw [vecSig_read, u16_read_append, ok_bind, Nat.mod_eq_of_lt hlen]
  simp [checked_mul, hof, hbig]

/-- C2: both directions of the signature-vector codec first compute
`count * 33` with overflow-checked multiplication and fail with
`BadLengthDescriptor` when the multiplication overflows or the product exceeds
the 64 KiB ceiling, before any element is emitted or read: the encoder
rejects the whole vector (emitting nothing), and a declared count of 2000
(`0x07D0`) fails on decode no matter what bytes follow. -/
theorem vecSig_length_guard {Sig : Type}
    (serialize_compact : Sig → List Nat)
    (from_compact : List Nat → Option Sig)
    (v : List Sig) (hv : v.length * 33 > MAX_BUF_SIZE)
    (rest : List Nat) :
    vecSig_write serialize_compact v = .error .BadLengthDescriptor ∧
    vecSig_read from_compact (u16_write 2000 ++ rest) =
      .error .BadLengthDescriptor := by
  constructor
  · by_cases hof : v.length * 33 < 18446744073709551616
    · simp [vecSig_write, checked_mul, hof, hv]
    · simp [vecSig_write, checked_mul, hof]
  · exact vecSig_read_guard from_compact 2000 (by norm_num)
      (by norm_num [MAX_BUF_SIZE]) rest

theorem vecSig_length_guard_witness :
    vecSig_write (fun _ : Unit => List.replicate 64 0)
      (List.replicate 1986 ()) = .error .BadLengthDescriptor ∧
    vecSig_read (fun _ => some ())
      (u16_write 2000 ++ [1, 2, 3]) = .error .BadLengthDescriptor :=
  vecSig_length_guard (fun _ : Unit => List.replicate 64 0) (fun _ => some ())
    (List.replicate 1986 ())
    (by rw [List.length_replicate]; norm_num [MAX_BUF_SIZE]) [1, 2, 3]

theorem mapFind_mapInsert {K V : Type} [DecidableEq K]
    (m : List (K × V)) (k : K) (v : V) :
    mapFind (mapInsert m k v) k = some v := by
  induction m with
  | nil => simp [mapInsert, mapFind]
  | cons kv t ih =>
    by_cases hk : kv.1 = k
    · have hany : (kv :: t).any (fun p => decide (p.1 = k)) = true := by
        simp [List.any_cons, hk]
      rw [mapInsert, if_pos (by simpa using hany)]
      simp only [List.map_cons, if_pos hk, mapFind]
      simp
    · by_cases ht : t.any (fun p => decide (p.1 = k)) = true
      · have hany : (kv :: t).any (fun p => decide (p.1 = k)) = true := by
          simp [List.any_cons, ht]
        rw [mapInsert, if_pos (by simpa using hany)]
        simp only [List.map_cons, if_neg hk]
        rw [mapFind, if_neg hk]
        have := ih
        rw [mapInsert, if_pos (by simpa using ht)] at this
        exact this
      · have hany : ¬ (kv :: t).any (fun p => decide (p.1 = k)) = true := by
          simp only [List.any_cons, Bool.or_eq_true, decide_eq_true_eq]
          push_neg
          exact ⟨hk, by simpa using ht⟩
        rw [mapInsert, if_neg (by simpa using hany)]
        rw [List.cons_append, mapFind, if_neg hk]
        have := ih
        rw [mapInsert, if_neg (by simpa using ht)] at this
        exact this

theorem u8_read_cons (b : Nat) (rest : List Nat) :
    u8_read (b :: rest) = .ok (b, rest) :=
  u8_read_append b rest

theorem hashMap_read_loop_pairs (ps : List (Nat × Nat))
    (acc : List (Nat × Nat)) (rest : List Nat) :
    hashMap_read_loop u8_read u8_read ps.length acc
        (ps.flatMap (fun p => u8_write p.1 ++ u8_write p.2) ++ rest) =
      .ok (ps.foldl (fun a p => mapInsert a p.1 p.2) acc, rest) := by
  induction ps generalizing acc with
  | nil => simp [hashMap_read_loop]
  | cons p t ih =>
    simp only [List.length_cons, List.flatMap_cons, List.append_assoc,
      hashMap_read_loop, u8_read_append, ok_bind, List.foldl_cons]
    exact ih (mapInsert acc p.1 p.2)

/-- C10: `HashMap` decode never rejects duplicate keys: reading any sequence
of declared pairs succeeds and folds them by `insert`, so a later value for a
key overwrites the earlier one (`mapFind` returns the inserted value), and the
decoded map can hold fewer entries than the declared count — as on the wire
`00 02 05 0A 05 14`, two declared pairs with the duplicate key `5`. -/
theorem hashMap_decode_duplicates (ps : List (Nat × Nat))
    (hlen : ps.length < 2 ^ 16)
    (_hbytes : ∀ p ∈ ps, p.1 < 256 ∧ p.2 < 256)
    (m : List (Nat × Nat)) (k v : Nat) :
    hashMap_read u8_read u8_read
        (u16_write ps.length ++
          ps.flatMap (fun p => u8_write p.1 ++ u8_write p.2)) =
      .ok (ps.foldl (fun a p => mapInsert a p.1 p.2) [], []) ∧
    mapFind (mapInsert m k v) k = some v ∧
    hashMap_read u8_read u8_read [0, 2, 5, 10, 5, 20] =
      .ok ([(5, 20)], []) ∧
    ([(5, 20)] : List (Nat × Nat)).length < 2 := by
  refine ⟨?_, mapFind_mapInsert m k v, rfl, by decide⟩
  rw [hashMap_read, u16_read_append, Nat.mod_eq_of_lt hlen, ok_bind]
  have := hashMap_read_loop_pairs ps [] []
  simpa using this

theorem hashMap_decode_duplicates_witness :
    hashMap_read u8_read u8_read
        (u16_write ([(5, 10), (5, 20)] : List (Nat × Nat)).length ++
          ([(5, 10), (5, 20)] : List (Nat × Nat)).flatMap
            (fun p => u8_write p.1 ++ u8_write p.2)) =
      .ok (([(5, 10), (5, 20)] : List (Nat × Nat)).foldl
        (fun a p => mapInsert a p.1 p.2) [], []) ∧
    mapFind (mapInsert [(5, 10)] 5 20) 5 = some 20 ∧
    hashMap_read u8_read u8_read [0, 2, 5, 10, 5, 20] =
      .ok ([(5, 20)], []) ∧
    ([(5, 20)] : List (Nat × Nat)).length < 2 :=
  hashMap_decode_duplicates [(5, 10), (5, 20)] (by decide) (by decide)
    [(5, 10)] 5 20

theorem publicKey_codec_witness :
    publicKey_read
        (fun l => if l = List.replicate 33 0 then some () else none)
        (List.replicate 33 2 ++ [9]) = .error .BadPublicKey ∧
    publicKey_write (fun _ : Unit => List.replicate 33 0) () =
      List.replicate 33 0 ∧
    publicKey_read
        (fun l => if l = List.replicate 33 0 then some () else none)
        (publicKey_write (fun _ : Unit => List.replicate 33 0) () ++ [7]) =
      .ok ((), [7]) :=
  publicKey_codec (fun _ : Unit => List.replicate 33 0)
    (fun l => if l = List.replicate 33 0 then some () else none)
    (List.replicate 33 2) [9] [7] (by decide) (by decide) () (by decide)
    (by decide)

theorem read_exact_all (s : List Nat) : read_exact s.length s = .ok (s, []) := by
  simp [read_exact]

theorem foldlM_u8_pairs (m : List (Nat × Nat)) (acc : List Nat) :
    (m.foldlM (fun acc kv => do
      let kb ← u8_writeM kv.1
      let vb ← u8_writeM kv.2
      Except.ok (acc ++ kb ++ vb)) acc :
      Except DecodeError (List Nat)) =
    .ok (acc ++ m.flatMap (fun p => u8_write p.1 ++ u8_write p.2)) := by
  induction m generalizing acc with
  | nil =>
    simp only [List.foldlM_nil, List.flatMap_nil, List.append_nil]
    rfl
  | cons p t ih =>
    simp only [List.foldlM_cons, u8_writeM, ok_bind, List.flatMap_cons]
    simp only [u8_writeM, ok_bind] at ih
    rw [ih]
    simp [u8_write]

theorem hashMap_write_u8 (m : List (Nat × Nat)) :
    hashMap_write u8_writeM u8_writeM m =
      .ok (u16_write (m.length % 2 ^ 16) ++
        m.flatMap (fun p => u8_write p.1 ++ u8_write p.2)) := by
  rw [hashMap_write, foldlM_u8_pairs m [], ok_bind]
  simp

/-- C4 counterexample: a byte vector of length 65536 is encoded with length
prefix `u16_write 0` — the true length wrapped modulo 2^16 — so the emitted
prefix disagrees with the payload byte count. -/
theorem length_prefix_wraps_counterexample :
    vecU8_write (List.replicate 65536 0) =
      u16_write 0 ++ List.replicate 65536 0 ∧ (65536 : Nat) ≠ 0 := by
  constructor
  · rw [vecU8_write, List.length_replicate]
    norm_num
  · decide

/-- C4 (amended): for a byte vector, mapping or script whose element/byte
count is at most 65535, the 16-bit prefix the encoder writes equals the true
count, followed by the exact payload; the encoder does not reject larger
collections — it writes the count modulo 2^16 (see the counterexample). -/
theorem length_prefix_matches (v : List Nat) (hv : v.length ≤ 65535)
    (m : List (Nat × Nat)) (hm : m.length ≤ 65535)
    (sc : Script) (hsc : List.length sc ≤ 65535) :
    vecU8_write v = u16_write v.length ++ v ∧
    hashMap_write u8_writeM u8_writeM m =
      .ok (u16_write m.length ++
        m.flatMap (fun p => u8_write p.1 ++ u8_write p.2)) ∧
    script_write sc = u16_write (List.length sc) ++ sc := by
  have h1 : v.length % 2 ^ 16 = v.length := Nat.mod_eq_of_lt (by omega)
  have h2 : m.length % 2 ^ 16 = m.length := Nat.mod_eq_of_lt (by omega)
  have h3 : List.length sc % 2 ^ 16 = List.length sc :=
    Nat.mod_eq_of_lt (by omega)
  exact ⟨by rw [vecU8_write, h1], by rw [hashMap_write_u8, h2],
    by rw [script_write, h3]⟩

theorem length_prefix_matches_witness :
    vecU8_write [8, 9] = u16_write ([8, 9] : List Nat).length ++ [8, 9] ∧
    hashMap_write u8_writeM u8_writeM [(1, 2)] =
      .ok (u16_write ([(1, 2)] : List (Nat × Nat)).length ++
        ([(1, 2)] : List (Nat × Nat)).flatMap
          (fun p => u8_write p.1 ++ u8_write p.2)) ∧
    script_write [7] = u16_write (List.length [7]) ++ [7] :=
  length_prefix_matches [8, 9] (by decide) [(1, 2)] (by decide) [7] (by decide)

theorem bool_read_write (t : Bool) (rest : List Nat) :
    bool_read (bool_write t ++ rest) = .ok (t, rest) := by
  cases t <;> simp [bool_write, bool_read_cons]

theorem vecU8_read_write (v : List Nat) (hv : v.length < 2 ^ 16)
    (rest : List Nat) :
    vecU8_read (vecU8_write v ++ rest) = .ok (v, rest) := by
  have hmod : v.length % 2 ^ 16 = v.length := Nat.mod_eq_of_lt hv
  rw [vecU8_write, hmod, List.append_assoc, vecU8_read, u16_read_append,
    hmod, ok_bind]
  exact read_exact_append v rest rfl

theorem script_read_write (sc : Script) (hsc : List.length sc < 2 ^ 16)
    (rest : List Nat) :
    script_read (script_write sc ++ rest) = .ok (sc, rest) := by
  have hmod : List.length sc % 2 ^ 16 = List.length sc := Nat.mod_eq_of_lt hsc
  rw [script_write, hmod, List.append_assoc, script_read, u16_read_append,
    hmod, ok_bind]
  exact read_exact_append sc rest rfl

theorem optScript_read_write_some (sc : Script)
    (hsc : List.length sc < 2 ^ 16) :
    optScript_read (optScript_write (some sc)) = .ok (some sc, []) := by
  have hmod : List.length sc % 2 ^ 16 = List.length sc := Nat.mod_eq_of_lt hsc
  simp only [optScript_write, script_write, hmod, optScript_read,
    u16_read_append, read_exact_all]

theorem foldl_mapInsert_of_nodup {K V : Type} [DecidableEq K]
    (m : List (K × V)) (acc : List (K × V))
    (hnd : (m.map Prod.fst).Nodup)
    (hdisj : ∀ p ∈ m, acc.any (fun kv => kv.1 = p.1) = false) :
    m.foldl (fun a p => mapInsert a p.1 p.2) acc = acc ++ m := by
  induction m generalizing acc with
  | nil => simp
  | cons p t ih =>
    rw [List.foldl_cons]
    have hins : mapInsert acc p.1 p.2 = acc ++ [p] := by
      rw [mapInsert, if_neg (by simp [hdisj p (List.mem_cons_self p t)])]
    have hnd2 : (t.map Prod.fst).Nodup := by
      simp only [List.map_cons, List.nodup_cons] at hnd
      exact hnd.2
    have hp : p.1 ∉ t.map Prod.fst := by
      simp only [List.map_cons, List.nodup_cons] at hnd
      exact hnd.1
    have hdisj2 : ∀ q ∈ t, (acc ++ [p]).any (fun kv => kv.1 = q.1) = false := by
      intro q hq
      rw [List.any_append, hdisj q (List.mem_cons_of_mem p hq), Bool.false_or]
      simp only [List.any_cons, List.any_nil, Bool.or_false,
        decide_eq_false_iff_not]
      intro hpq
      exact hp (by rw [hpq]; exact List.mem_map_of_mem Prod.fst hq)
    rw [hins, ih (acc ++ [p]) hnd2 hdisj2]
    simp

theorem vecSig_write_ok {Sig : Type} (serc : Sig → List Nat)
    (sigs : List Sig) (hb : sigs.length * 33 ≤ MAX_BUF_SIZE) :
    vecSig_write serc sigs =
      .ok (u16_write (sigs.length % 2 ^ 16) ++
        sigs.flatMap (fun e => array_write (serc e))) := by
  have h65 : MAX_BUF_SIZE = 65536 := rfl
  have hpow : (2 : Nat) ^ 64 = 18446744073709551616 := by norm_num
  have hof : sigs.length * 33 < 2 ^ 64 := by omega
  have hle : ¬ sigs.length * 33 > MAX_BUF_SIZE := by omega
  rw [vecSig_write, checked_mul, if_pos hof]
  simp [hle]

theorem vecSig_read_loop_all {Sig : Type}
    (fromc : List Nat → Option Sig) (serc : Sig → List Nat)
    (sigs : List Sig)
    (hall : ∀ s ∈ sigs, (serc s).length = 64 ∧ fromc (serc s) = some s)
    (acc : List Sig) (rest : List Nat) :
    vecSig_read_loop fromc sigs.length acc
        (sigs.flatMap (fun e => array_write (serc e)) ++ rest) =
      .ok (acc ++ sigs, rest) := by
  induction sigs generalizing acc with
  | nil => simp [vecSig_read_loop]
  | cons s t ih =>
    rw [List.length_cons, List.flatMap_cons, List.append_assoc,
      vecSig_read_loop]
    have h1 : signature_read fromc (array_write (serc s) ++
        (t.flatMap (fun e => array_write (serc e)) ++ rest)) =
        .ok (s, t.flatMap (fun e => array_write (serc e)) ++ rest) := by
      rw [signature_read, array_write,
        read_exact_append (serc s) _ (hall s (by simp)).1, ok_bind]
      simp [(hall s (by simp)).2]
    rw [h1, ok_bind]
    have := ih (fun q hq => hall q (by simp [hq])) (acc ++ [s])
    simpa using this

theorem vecSig_roundtrip {Sig : Type} (serc : Sig → List Nat)
    (fromc : List Nat → Option Sig) (sigs : List Sig)
    (hb : sigs.length * 33 ≤ MAX_BUF_SIZE)
    (hall : ∀ s ∈ sigs, (serc s).length = 64 ∧ fromc (serc s) = some s)
    (rest : List Nat) :
    (vecSig_write serc sigs >>=
      fun w => vecSig_read fromc (w ++ rest)) = .ok (sigs, rest) := by
  have h65 : MAX_BUF_SIZE = 65536 := rfl
  have hlen : sigs.length < 2 ^ 16 := by omega
  have hmod : sigs.length % 2 ^ 16 = sigs.length := Nat.mod_eq_of_lt hlen
  have hpow : (2 : Nat) ^ 64 = 18446744073709551616 := by norm_num
  have hof : sigs.length * 33 < 2 ^ 64 := by omega
  have hle : ¬ sigs.length * 33 > MAX_BUF_SIZE := by omega
  rw [vecSig_write_ok serc sigs hb, ok_bind, hmod, List.append_assoc,
    vecSig_read, u16_read_append, hmod, ok_bind]
  have hcm : checked_mul sigs.length 33 = some (sigs.length * 33) := by
    rw [checked_mul, if_pos hof]
  have hloop := vecSig_read_loop_all fromc serc sigs hall [] rest
  simp only [List.nil_append] at hloop
  simp [hcm, hle, hloop]

theorem publicKey_rt {PK : Type} (serialize : PK → List Nat)
    (from_slice : List Nat → Option PK) (k : PK)
    (hklen : (serialize k).length = 33)
    (hkrt : from_slice (serialize k) = some k) (rest : List Nat) :
    publicKey_read from_slice (publicKey_write serialize k ++ rest) =
      .ok (k, rest) := by
  rw [publicKey_read, publicKey_write, array_write,
    read_exact_append (serialize k) rest hklen]
  simp [ok_bind, hkrt]

theorem signature_rt {Sig : Type} (serc : Sig → List Nat)
    (fromc : List Nat → Option Sig) (sg : Sig)
    (hsglen : (serc sg).length = 64)
    (hsgrt : fromc (serc sg) = some sg) (rest : List Nat) :
    signature_read fromc (signature_write serc sg ++ rest) =
      .ok (sg, rest) := by
  rw [signature_read, signature_write, array_write,
    read_exact_append (serc sg) rest hsglen]
  simp [ok_bind, hsgrt]

theorem hashMap_roundtrip (m : List (Nat × Nat)) (hm : m.length < 2 ^ 16)
    (hmk : (m.map Prod.fst).Nodup) (rest : List Nat) :
    (hashMap_write u8_writeM u8_writeM m >>=
      fun w => hashMap_read u8_read u8_read (w ++ rest)) = .ok (m, rest) := by
  have hmod : m.length % 2 ^ 16 = m.length := Nat.mod_eq_of_lt hm
  rw [hashMap_write_u8, ok_bind, hmod, List.append_assoc, hashMap_read,
    u16_read_append, hmod, ok_bind]
  have hloop := hashMap_read_loop_pairs m [] rest
  have hfold := foldl_mapInsert_of_nodup m [] hmk (by simp)
  rw [hfold] at hloop
  simpa using hloop

/-- C1 counterexample: the encode/decode round-trip fails for a `Vec<u8>` of
length 65536 — the emitted length prefix wraps to 0, so decoding the encoding
yields the empty vector (with all 65536 payload bytes left unconsumed), not
the original value. -/
theorem roundtrip_fails_oversized :
    vecU8_read (vecU8_write (List.replicate 65536 0)) =
      .ok ([], List.replicate 65536 0) ∧
    List.replicate 65536 (0 : Nat) ≠ [] := by
  have key : ∀ v : List Nat, v.length = 65536 →
      vecU8_read (vecU8_write v) = .ok ([], v) := by
    intro v hlen
    rw [vecU8_write, hlen]
    norm_num
    rw [vecU8_read, u16_read_append, ok_bind]
    simp [read_exact]
  constructor
  · exact key _ (by rw [List.length_replicate])
  · intro h
    have := congrArg List.length h
    rw [List.length_replicate, List.length_nil] at this
    exact absurd this (by omega)

/-- C1 (amended): decoding the bytes produced by encoding returns the original
value for every supported wire type, for every value whose element/byte count
fits the 16-bit length prefix (at most 65535; for signature vectors, whose
count passes the 64 KiB `count * 33` guard): u8, bool, u16/u32/u64, the fixed
arrays of sizes 32/33/64/1300, `Vec<u8>`, `HashMap`, `Vec<Signature>`,
`Script`, `Option<Script>`, `PublicKey`, `Signature` and `Sha256dHash` all
round-trip; the counterexample shows a 65536-byte vector does not, so the
bound cannot be dropped. -/
theorem roundtrip_bounded {PK Sig : Type}
    (serialize : PK → List Nat) (from_slice : List Nat → Option PK)
    (serc : Sig → List Nat) (fromc : List Nat → Option Sig)
    (a : Nat) (_ha : a < 2 ^ 8) (t : Bool)
    (n16 : Nat) (h16 : n16 < 2 ^ 16)
    (n32 : Nat) (h32 : n32 < 2 ^ 32)
    (n64 : Nat) (h64 : n64 < 2 ^ 64)
    (a32 : List Nat) (ha32 : a32.length = 32)
    (a33 : List Nat) (ha33 : a33.length = 33)
    (a64 : List Nat) (ha64 : a64.length = 64)
    (a1300 : List Nat) (ha1300 : a1300.length = 1300)
    (v : List Nat) (hv : v.length < 2 ^ 16)
    (m : List (Nat × Nat)) (hm : m.length < 2 ^ 16)
    (hmk : (m.map Prod.fst).Nodup)
    (sigs : List Sig) (hsigs : sigs.length * 33 ≤ MAX_BUF_SIZE)
    (hallsig : ∀ s ∈ sigs, (serc s).length = 64 ∧ fromc (serc s) = some s)
    (sc : Script) (hsc : List.length sc < 2 ^ 16)
    (k : PK) (hklen : (serialize k).length = 33)
    (hkrt : from_slice (serialize k) = some k)
    (sg : Sig) (hsglen : (serc sg).length = 64)
    (hsgrt : fromc (serc sg) = some sg)
    (hsh : Sha256dHash) (hhsh : List.length hsh = 32)
    (rest : List Nat) :
    u8_read (u8_write a ++ rest) = .ok (a, rest) ∧
    bool_read (bool_write t ++ rest) = .ok (t, rest) ∧
    u16_read (u16_write n16 ++ rest) = .ok (n16, rest) ∧
    u32_read (u32_write n32 ++ rest) = .ok (n32, rest) ∧
    u64_read (u64_write n64 ++ rest) = .ok (n64, rest) ∧
    array_read 32 (array_write a32 ++ rest) = .ok (a32, rest) ∧
    array_read 33 (array_write a33 ++ rest) = .ok (a33, rest) ∧
    array_read 64 (array_write a64 ++ rest) = .ok (a64, rest) ∧
    array_read 1300 (array_write a1300 ++ rest) = .ok (a1300, rest) ∧
    vecU8_read (vecU8_write v ++ rest) = .ok (v, rest) ∧
    (hashMap_write u8_writeM u8_writeM m >>=
      fun w => hashMap_read u8_read u8_read (w ++ rest)) = .ok (m, rest) ∧
    (vecSig_write serc sigs >>=
      fun w => vecSig_read fromc (w ++ rest)) = .ok (sigs, rest) ∧
    script_read (script_write sc ++ rest) = .ok (sc, rest) ∧
    optScript_read (optScript_write none) = .ok (none, []) ∧
    optScript_read (optScript_write (some sc)) = .ok (some sc, []) ∧
    publicKey_read from_slice (publicKey_write serialize k ++ rest) =
      .ok (k, rest) ∧
    signature_read fromc (signature_write serc sg ++ rest) = .ok (sg, rest) ∧
    sha256dHash_read (sha256dHash_write hsh ++ rest) = .ok (hsh, rest) := by
  refine ⟨u8_read_append a rest, bool_read_write t rest, ?_, ?_, ?_,
    read_exact_append a32 rest ha32, read_exact_append a33 rest ha33,
    read_exact_append a64 rest ha64, read_exact_append a1300 rest ha1300,
    vecU8_read_write v hv rest, hashMap_roundtrip m hm hmk rest,
    vecSig_roundtrip serc fromc sigs hsigs hallsig rest,
    script_read_write sc hsc rest, rfl,
    optScript_read_write_some sc hsc,
    publicKey_rt serialize from_slice k hklen hkrt rest,
    signature_rt serc fromc sg hsglen hsgrt rest,
    read_exact_append hsh rest hhsh⟩
  · rw [u16_read_append, Nat.mod_eq_of_lt h16]
  · rw [u32_read_append, Nat.mod_eq_of_lt h32]
  · rw [u64_read_append, Nat.mod_eq_of_lt h64]

theorem roundtrip_bounded_witness :
    u8_read (u8_write 5 ++ [9]) = .ok (5, [9]) ∧
    bool_read (bool_write true ++ [9]) = .ok (true, [9]) ∧
    u16_read (u16_write 513 ++ [9]) = .ok (513, [9]) ∧
    u32_read (u32_write 66051 ++ [9]) = .ok (66051, [9]) ∧
    u64_read (u64_write 3 ++ [9]) = .ok (3, [9]) ∧
    array_read 32 (array_write (List.replicate 32 1) ++ [9]) =
      .ok (List.replicate 32 1, [9]) ∧
    array_read 33 (array_write (List.replicate 33 1) ++ [9]) =
      .ok (List.replicate 33 1, [9]) ∧
    array_read 64 (array_write (List.replicate 64 1) ++ [9]) =
      .ok (List.replicate 64 1, [9]) ∧
    array_read 1300 (array_write (List.replicate 1300 1) ++ [9]) =
      .ok (List.replicate 1300 1, [9]) ∧
    vecU8_read (vecU8_write [8, 9] ++ [9]) = .ok ([8, 9], [9]) ∧
    (hashMap_write u8_writeM u8_writeM [(1, 2), (3, 4)] >>=
      fun w => hashMap_read u8_read u8_read (w ++ [9])) =
      .ok ([(1, 2), (3, 4)], [9]) ∧
    (vecSig_write sigSerTest [(), ()] >>=
      fun w => vecSig_read sigParseTest (w ++ [9])) = .ok ([(), ()], [9]) ∧
    script_read (script_write [7] ++ [9]) = .ok ([7], [9]) ∧
    optScript_read (optScript_write none) = .ok (none, []) ∧
    optScript_read (optScript_write (some [7])) = .ok (some [7], []) ∧
    publicKey_read pkParseTest (publicKey_write pkSerTest () ++ [9]) =
      .ok ((), [9]) ∧
    signature_read sigParseTest (signature_write sigSerTest () ++ [9]) =
      .ok ((), [9]) ∧
    sha256dHash_read (sha256dHash_write (List.replicate 32 3) ++ [9]) =
      .ok (List.replicate 32 3, [9]) :=
  roundtrip_bounded pkSerTest pkParseTest sigSerTest sigParseTest
    5 (by decide) true 513 (by decide) 66051 (by decide) 3 (by decide)
    (List.replicate 32 1) (by rw [List.length_replicate])
    (List.replicate 33 1) (by rw [List.length_replicate])
    (List.replicate 64 1) (by rw [List.length_replicate])
    (List.replicate 1300 1) (by rw [List.length_replicate])
    [8, 9] (by decide) [(1, 2), (3, 4)] (by decide) (by decide)
    [(), ()] (by decide)
    (by
      intro s hs
      refine ⟨by rw [sigSerTest, List.length_replicate], ?_⟩
      cases s
      rw [sigSerTest, sigParseTest, if_pos rfl])
    [7] (by decide) () (by rw [pkSerTest, List.length_replicate])
    (by rw [pkSerTest, pkParseTest, if_pos rfl])
    () (by rw [sigSerTest, List.length_replicate])
    (by rw [sigSerTest, sigParseTest, if_pos rfl])
    (List.replicate 32 3) (by rw [List.length_replicate]) [9]

end Ser
